import Mathlib

/-!
# Arcade Stacker: the game-state engine of `src/App.jsx`

The React component `StackerArcade` keeps five pieces of state (`stack`,
`moving`, `speed`, `running`, `gameOver`) and changes them in three places:
the interval callback of the movement effect (one *tick*), `handleDrop` and
`restart`.  Each of them is embedded here as a function on an explicit state
record.  Columns, the direction and the speed are integers; row indices are
natural numbers.
-/

namespace Stacker

/-! ## Constants (`App.jsx`, lines 21-24) -/

/-- Number of grid columns, `const COLS = 7`. -/
def COLS : Int := 7

/-- Number of grid rows, `const ROWS = 15`. -/
def ROWS : Nat := 15

/-- Width of the seed row, `const START_WIDTH = 3`. -/
def START_WIDTH : Nat := 3

/-- Index of the seed row, `const START_ROW = 0`. -/
def START_ROW : Nat := 0

/-! ## Data model -/

/-- An entry of `stack`: `{ row, cols }`. -/
structure Row where
  row : Nat
  cols : List Int
deriving DecidableEq

/-- The moving block: `{ row, cols, dir }`. -/
structure Moving where
  row : Nat
  cols : List Int
  dir : Int
deriving DecidableEq

/-- The five `useState` cells of `StackerArcade`. -/
structure State where
  stack : List Row
  moving : Moving
  speed : Int
  running : Bool
  gameOver : Bool
deriving DecidableEq

/-- The columns `Array.from({ length: START_WIDTH }, (_, i) => 2 + i)`. -/
def startCols : List Int :=
  (List.range START_WIDTH).map (fun (i : Nat) => 2 + (i : Int))

/-- The state the component is constructed with (lines 26-38). -/
def initialState : State :=
  { stack := [{ row := START_ROW, cols := startCols }]
    moving := { row := START_ROW + 1, cols := startCols, dir := 1 }
    speed := 400
    running := true
    gameOver := false }

/-! ## The movement tick (lines 43-60) -/

/-- `Math.max(...cols)`; `none` stands for `-Infinity`, the value on an empty
array. -/
def maxCol : List Int → Option Int
  | [] => none
  | c :: cs =>
    match maxCol cs with
    | none => some c
    | some m => some (max c m)

/-- `Math.min(...cols)`; `none` stands for `Infinity`, the value on an empty
array. -/
def minCol : List Int → Option Int
  | [] => none
  | c :: cs =>
    match minCol cs with
    | none => some c
    | some m => some (min c m)

/-- The comparison `maxCol >= k`, false for `-Infinity`. -/
def maxGe (m : Option Int) (k : Int) : Bool :=
  match m with
  | none => false
  | some v => decide (k ≤ v)

/-- The comparison `minCol <= k`, false for `Infinity`. -/
def minLe (m : Option Int) (k : Int) : Bool :=
  match m with
  | none => false
  | some v => decide (v ≤ k)

/-- The updater passed to `setMoving` by the interval callback (lines 46-56). -/
def tickMoving (prev : Moving) : Moving :=
  let maxC := maxCol prev.cols
  let minC := minCol prev.cols
  let dir := prev.dir
  let dir := if dir = 1 ∧ maxGe maxC (COLS - 1) = true then -1 else dir
  let dir := if dir = -1 ∧ minLe minC 0 = true then 1 else dir
  let shifted := prev.cols.map (fun c => c + dir)
  { prev with cols := shifted, dir := dir }

/-- One firing of the movement interval.  The effect installs the interval only
when `running && !gameOver` (line 44) and clears it when either flag changes,
so a tick leaves every other state untouched. -/
def tick (s : State) : State :=
  if !s.running || s.gameOver then s
  else { s with moving := tickMoving s.moving }

/-! ## Dropping (lines 72-98) -/

/-- The columns of the moving block that occur in the row `prevRow`:
`moving.cols.filter((c) => prevRow.cols.includes(c))`. -/
def overlapCols (moving : Moving) (prevRow : Row) : List Int :=
  moving.cols.filter (fun c => prevRow.cols.contains c)

/-- The function `handleDrop`.  The result is `none` when `stack` is empty:
`stack[stack.length - 1]` is then `undefined` and reading `prevRow.cols`
throws. -/
def handleDrop (s : State) : Option State :=
  if s.gameOver then some s
  else
    match s.stack.getLast? with
    | none => none
    | some prevRow =>
      let overlap := overlapCols s.moving prevRow
      if overlap.length = 0 then
        some { s with gameOver := true, running := false }
      else
        let newRow := s.moving.row
        let newStack := s.stack ++ [{ row := newRow, cols := overlap }]
        if newRow ≥ ROWS - 1 then
          some { s with gameOver := true, running := false }
        else
          let nextRow := newRow + 1
          some { s with
            stack := newStack
            moving := { row := nextRow, cols := overlap, dir := 1 }
            speed := max 100 (s.speed - 15) }

/-! ## Restart (lines 100-106) -/

/-- The function `restart`: every cell is overwritten. -/
def restart (_s : State) : State :=
  { stack := [{ row := 0, cols := startCols }]
    moving := { row := 1, cols := startCols, dir := 1 }
    speed := 400
    running := true
    gameOver := false }

/-! ## The reported outcome (lines 130-132) -/

/-- What the overlay tells the player. -/
inductive Outcome where
  | playing
  | won
  | lost
deriving DecidableEq

/-- The overlay is drawn only when `gameOver`; its headline is the win text
when `stack.length >= ROWS - 1` and the loss text otherwise. -/
def outcome (s : State) : Outcome :=
  if s.gameOver then
    if s.stack.length ≥ ROWS - 1 then Outcome.won else Outcome.lost
  else Outcome.playing

/-! ## Sequences of calls and reachable states -/

/-- The two calls that are meant to do nothing once the game is over. -/
inductive Call where
  | tick
  | drop
deriving DecidableEq

/-- Runs a sequence of `tick` and `handleDrop` calls, left to right. -/
def runCalls : List Call → State → Option State
  | [], s => some s
  | Call.tick :: cs, s => runCalls cs (tick s)
  | Call.drop :: cs, s =>
    match handleDrop s with
    | none => none
    | some t => runCalls cs t

/-- States reachable from the initial state by `tick`, `handleDrop` and
`restart`. -/
inductive Reachable : State → Prop where
  | init : Reachable initialState
  | tick {s : State} : Reachable s → Reachable (tick s)
  | drop {s t : State} : Reachable s → handleDrop s = some t → Reachable t
  | restart {s : State} : Reachable s → Reachable (restart s)

/-- The consecutive integers `a, a + 1, ..., a + w - 1`. -/
def run (a : Int) (w : Nat) : List Int :=
  (List.range w).map (fun (i : Nat) => a + (i : Int))

/-- Drops `n` times in a row; used to build concrete play-throughs. -/
def dropN : Nat → State → Option State
  | 0, s => some s
  | n + 1, s =>
    match handleDrop s with
    | none => none
    | some t => dropN n t

/-! ## Specification vocabulary and concrete play-throughs -/

/-- What every reachable state satisfies. -/
structure Inv (s : State) : Prop where
  flags : s.running = !s.gameOver
  rows : s.stack.map Row.row = List.range s.stack.length
  contig : ∀ r ∈ s.stack, ∃ (a : Int) (w : Nat),
    r.cols = run a w ∧ 0 ≤ a ∧ 1 ≤ w ∧ a + (w : Int) ≤ 7
  widths : s.stack.Chain' (fun below above => above.cols.length ≤ below.cols.length)
  last : ∃ prev, s.stack.getLast? = some prev ∧ s.moving.row = prev.row + 1 ∧
    s.moving.cols.length = prev.cols.length
  mov : ∃ (a : Int) (w : Nat),
    s.moving.cols = run a w ∧ 0 ≤ a ∧ 1 ≤ w ∧ w ≤ 3 ∧ a + (w : Int) ≤ 7
  dir : s.moving.dir = 1 ∨ s.moving.dir = -1
  row_len : s.moving.row = s.stack.length
  len : s.stack.length ≤ 14
  speed : s.speed = 400 - 15 * ((s.stack.length : Int) - 1)

/-- The state after thirteen drops of the untouched starting block: the stack
holds rows 0 to 13 and the moving block travels on the top row 14. -/
def topState : State :=
  { stack := (List.range 14).map (fun i => { row := i, cols := [2, 3, 4] })
    moving := { row := 14, cols := [2, 3, 4], dir := 1 }
    speed := 205
    running := true
    gameOver := false }

/-- The state after two ticks, one drop (which trims the block to `[4]`) and
twelve drops more: rows 1 to 13 are `[4]`, the block is on row 14 at `[4]`. -/
def trimmedTop : State :=
  { stack := { row := 0, cols := [2, 3, 4] } ::
      (List.range 13).map (fun i => { row := i + 1, cols := [4] })
    moving := { row := 14, cols := [4], dir := 1 }
    speed := 205
    running := true
    gameOver := false }

/-- The state of the spec's scenario: two ticks, then one drop. -/
def scenarioState : State :=
  { stack := [{ row := 0, cols := [2, 3, 4] }, { row := 1, cols := [4] }]
    moving := { row := 2, cols := [4], dir := 1 }
    speed := 385
    running := true
    gameOver := false }

/-- The columns of a moving block lie in the grid: each is in `[0, COLS)`, and
the minimum and maximum the tick computes are at least 0 and at most
`COLS - 1`. -/
def MovingInGrid (m : Moving) : Prop :=
  (∀ c ∈ m.cols, 0 ≤ c ∧ c < COLS) ∧
    ∃ lo hi, minCol m.cols = some lo ∧ maxCol m.cols = some hi ∧ 0 ≤ lo ∧ hi ≤ COLS - 1

/-- The state after six ticks: the block has bounced off the right edge and
reached the left edge, `[0, 1, 2]` with direction `-1`. -/
def leftEdgeState : State :=
  { stack := [{ row := 0, cols := [2, 3, 4] }]
    moving := { row := 1, cols := [0, 1, 2], dir := -1 }
    speed := 400
    running := true
    gameOver := false }

/-- A game-over state reached by play: two ticks, then the drop of the scenario,
one more tick, which moves the block off the column below it, and a drop. -/
def lostState : State :=
  { stack := [{ row := 0, cols := [2, 3, 4] }, { row := 1, cols := [4] }]
    moving := { row := 2, cols := [5], dir := 1 }
    speed := 385
    running := false
    gameOver := true }

/-! ## Consecutive runs of columns -/

theorem run_succ (a : Int) (w : Nat) : run a (w + 1) = run a w ++ [a + (w : Int)] := by
  simp [run, List.range_succ]

theorem run_succ_cons (a : Int) (w : Nat) : run a (w + 1) = a :: run (a + 1) w := by
  simp only [run, List.range_succ_eq_map, List.map_cons, List.map_map]
  simp only [Nat.cast_zero, add_zero, List.cons.injEq, true_and]
  apply List.map_congr_left
  intro i _
  simp only [Function.comp, Nat.cast_succ]
  omega

theorem length_run (a : Int) (w : Nat) : (run a w).length = w := by
  simp [run]

theorem mem_run {a : Int} {w : Nat} {c : Int} : c ∈ run a w ↔ a ≤ c ∧ c < a + (w : Int) := by
  simp only [run, List.mem_map, List.mem_range]
  constructor
  · rintro ⟨i, hi, rfl⟩
    omega
  · rintro ⟨h1, h2⟩
    exact ⟨(c - a).toNat, by omega, by omega⟩

theorem map_add_run (a d : Int) (w : Nat) : (run a w).map (fun c => c + d) = run (a + d) w := by
  simp only [run, List.map_map]
  apply List.map_congr_left
  intro i _
  simp only [Function.comp]
  omega

theorem maxCol_run (a : Int) (w : Nat) : maxCol (run a (w + 1)) = some (a + (w : Int)) := by
  induction w generalizing a with
  | zero => simp [run, maxCol]
  | succ n ih =>
    rw [run_succ_cons, maxCol, ih]
    simp only [Nat.cast_succ, Option.some.injEq]
    omega

theorem minCol_run (a : Int) (w : Nat) : minCol (run a (w + 1)) = some a := by
  induction w generalizing a with
  | zero => simp [run, minCol]
  | succ n ih =>
    rw [run_succ_cons, minCol, ih]
    simp only [Option.some.injEq]
    omega

theorem filter_run (a lo hi : Int) (w : Nat) :
    (run a w).filter (fun c => decide (lo ≤ c ∧ c < hi)) =
      run (max a lo) (min (a + (w : Int)) hi - max a lo).toNat := by
  induction w with
  | zero =>
    have : (min (a + ((0 : Nat) : Int)) hi - max a lo).toNat = 0 := by omega
    rw [this]; rfl
  | succ n ih =>
    rw [run_succ, List.filter_append, ih]
    by_cases h : lo ≤ a + (n : Int) ∧ a + (n : Int) < hi
    · have e : (min (a + ((n + 1 : Nat) : Int)) hi - max a lo).toNat =
          (min (a + (n : Int)) hi - max a lo).toNat + 1 := by omega
      rw [e, run_succ]
      simp only [List.filter_cons, List.filter_nil, h, and_self, decide_True, if_true]
      congr 2
      omega
    · have e : (min (a + ((n + 1 : Nat) : Int)) hi - max a lo).toNat =
          (min (a + (n : Int)) hi - max a lo).toNat := by omega
      rw [e]
      simp [List.filter_cons, h]

theorem overlapCols_run (m : Moving) (p : Row) (a b : Int) (w v : Nat)
    (hm : m.cols = run a w) (hp : p.cols = run b v) :
    overlapCols m p =
      run (max a b) (min (a + (w : Int)) (b + (v : Int)) - max a b).toNat := by
  unfold overlapCols
  rw [hm, hp, ← filter_run]
  apply List.filter_congr
  intro c _
  simp only [List.contains_eq_any_beq, List.any_eq, decide_eq_decide]
  constructor
  · rintro ⟨x, hx, hxc⟩
    have : c = x := by simpa using hxc
    subst this
    exact mem_run.mp hx
  · intro h
    exact ⟨c, mem_run.mpr h, by simp⟩

theorem tickMoving_run (m : Moving) (a : Int) (k : Nat)
    (hm : m.cols = run a (k + 1)) (hk : k ≤ 5) (hb : a + (k : Int) ≤ 6)
    (hd : m.dir = 1 ∨ m.dir = -1) :
    tickMoving m =
      (if (m.dir = 1 ∧ a + (k : Int) < 6) ∨ (m.dir = -1 ∧ a ≤ 0) then
        { row := m.row, cols := run (a + 1) (k + 1), dir := 1 }
      else { row := m.row, cols := run (a - 1) (k + 1), dir := -1 }) := by
  unfold tickMoving
  simp only [hm, maxCol_run, minCol_run, maxGe, minLe, COLS, map_add_run]
  rcases hd with hd | hd
  · by_cases h6 : (6 : Int) ≤ a + (k : Int)
    · have h6' : ¬ (a + (k : Int) < 6) := by omega
      have h0 : ¬ a ≤ 0 := by omega
      simp [hd, h6, h6', h0, sub_eq_add_neg]
    · have h6' : a + (k : Int) < 6 := by omega
      simp [hd, h6, h6']
  · by_cases h0 : a ≤ 0
    · simp [hd, h0]
    · simp [hd, h0, sub_eq_add_neg]

/-! ## The invariant of reachable states -/

theorem inv_initialState : Inv initialState where
  flags := rfl
  rows := rfl
  contig := by
    intro r hr
    simp only [initialState, List.mem_singleton] at hr
    subst hr
    exact ⟨2, 3, rfl, by decide, by decide, by decide⟩
  widths := List.chain'_singleton _
  last := ⟨_, rfl, rfl, rfl⟩
  mov := ⟨2, 3, rfl, by decide, by decide, by decide, by decide⟩
  dir := Or.inl rfl
  row_len := rfl
  len := by decide
  speed := by decide

theorem inv_restart (s : State) : Inv (restart s) := inv_initialState

theorem inv_tick {s : State} (h : Inv s) : Inv (tick s) := by
  unfold tick
  split
  · exact h
  · obtain ⟨a, w, hc, ha, hw1, hw3, haw⟩ := h.mov
    obtain ⟨k, rfl⟩ : ∃ k, w = k + 1 := ⟨w - 1, by omega⟩
    have ht := tickMoving_run s.moving a k hc (by omega) (by push_cast at haw; omega) h.dir
    obtain ⟨prev, hp1, hp2, hp3⟩ := h.last
    refine ⟨h.flags, h.rows, h.contig, h.widths, ⟨prev, hp1, ?_, ?_⟩, ?_, ?_, ?_, h.len, h.speed⟩
    · show (tickMoving s.moving).row = prev.row + 1
      rw [ht]; split <;> exact hp2
    · show (tickMoving s.moving).cols.length = prev.cols.length
      rw [← hp3, hc, ht]; split <;> simp [length_run]
    · show ∃ (a : Int) (w : Nat), (tickMoving s.moving).cols = run a w ∧ _
      rw [ht]
      split
      · rename_i hcase
        refine ⟨a + 1, k + 1, rfl, by omega, by omega, hw3, ?_⟩
        push_cast at haw ⊢
        rcases hcase with ⟨_, h6⟩ | ⟨_, h0⟩ <;> omega
      · rename_i hcase
        refine ⟨a - 1, k + 1, rfl, ?_, by omega, hw3, by omega⟩
        rcases h.dir with hd | hd
        · simp only [hd, true_and, not_or, not_and] at hcase
          omega
        · simp only [hd, true_and, not_or, not_and] at hcase
          have := hcase.2
          omega
    · show (tickMoving s.moving).dir = 1 ∨ (tickMoving s.moving).dir = -1
      rw [ht]; split
      · exact Or.inl rfl
      · exact Or.inr rfl
    · show (tickMoving s.moving).row = s.stack.length
      rw [ht]; split <;> exact h.row_len

theorem inv_gameOver {s : State} (h : Inv s) :
    Inv { s with gameOver := true, running := false } :=
  ⟨rfl, h.rows, h.contig, h.widths, h.last, h.mov, h.dir, h.row_len, h.len, h.speed⟩

/-- The three ways `handleDrop` can leave a running state, spelled out. -/
theorem handleDrop_running (s : State) (prevRow : Row) (hg : s.gameOver = false)
    (hl : s.stack.getLast? = some prevRow) :
    handleDrop s =
      (if overlapCols s.moving prevRow = [] then
        some { s with gameOver := true, running := false }
      else if ROWS - 1 ≤ s.moving.row then
        some { s with gameOver := true, running := false }
      else
        some { stack := s.stack ++ [{ row := s.moving.row, cols := overlapCols s.moving prevRow }]
               moving := { row := s.moving.row + 1, cols := overlapCols s.moving prevRow, dir := 1 }
               speed := max 100 (s.speed - 15)
               running := s.running
               gameOver := s.gameOver }) := by
  unfold handleDrop
  simp only [hg, hl, List.length_eq_zero, Bool.false_eq_true, if_false, ge_iff_le]

theorem inv_drop {s t : State} (h : Inv s) (hd : handleDrop s = some t) : Inv t := by
  by_cases hg : s.gameOver = true
  · have : handleDrop s = some s := by unfold handleDrop; simp [hg]
    rw [this] at hd
    cases hd
    exact h
  · have hg' : s.gameOver = false := by simpa using hg
    obtain ⟨prev, hp1, hp2, hp3⟩ := h.last
    rw [handleDrop_running s prev hg' hp1] at hd
    split at hd
    · cases hd; exact inv_gameOver h
    · split at hd
      · cases hd; exact inv_gameOver h
      · rename_i hne hrow
        cases hd
        obtain ⟨a, w, hc, ha, hw1, hw3, haw⟩ := h.mov
        obtain ⟨b, v, hpc, hb, hv1, hbv⟩ := h.contig prev (List.mem_of_getLast?_eq_some hp1)
        have hov := overlapCols_run s.moving prev a b w v hc hpc
        have hlen : (overlapCols s.moving prev).length ≤ s.moving.cols.length :=
          List.length_filter_le _ _
        have hpos : 1 ≤ (overlapCols s.moving prev).length := by
          rcases hcs : overlapCols s.moving prev with _ | ⟨x, xs⟩
          · exact absurd hcs hne
          · simp
        have hlen' : (overlapCols s.moving prev).length =
            (min (a + (w : Int)) (b + (v : Int)) - max a b).toNat := by
          rw [hov, length_run]
        have hwl : s.moving.cols.length = w := by rw [hc, length_run]
        have hrl := h.row_len
        have hR : ¬ (14 ≤ s.moving.row) := hrow
        refine ⟨h.flags, ?_, ?_, ?_, ?_, ?_, Or.inl rfl, ?_, ?_, ?_⟩
        · show List.map Row.row (s.stack ++ [_]) = List.range (s.stack ++ [_]).length
          rw [List.map_append, h.rows, List.length_append, List.length_singleton,
            List.range_succ, List.map_singleton, hrl]
        · intro r hr
          rcases List.mem_append.mp hr with hr | hr
          · exact h.contig r hr
          · rw [List.mem_singleton] at hr
            subst hr
            refine ⟨max a b, _, hov, by omega, by omega, ?_⟩
            omega
        · show List.Chain' _ (s.stack ++ [_])
          rw [List.chain'_append]
          refine ⟨h.widths, List.chain'_singleton _, ?_⟩
          intro x hx y hy
          rw [hp1, Option.mem_def, Option.some.injEq] at hx
          simp only [List.head?_cons, Option.mem_def, Option.some.injEq] at hy
          subst hx hy
          show (overlapCols s.moving prev).length ≤ prev.cols.length
          omega
        · exact ⟨_, List.getLast?_concat _, rfl, rfl⟩
        · exact ⟨max a b, _, hov, by omega, by omega, by omega, by omega⟩
        · show s.moving.row + 1 = (s.stack ++ [_]).length
          rw [List.length_append, List.length_singleton, hrl]
        · show (s.stack ++ [_]).length ≤ 14
          rw [List.length_append, List.length_singleton]
          omega
        · show max 100 (s.speed - 15) = 400 - 15 * (((s.stack ++ [_]).length : Int) - 1)
          rw [List.length_append, List.length_singleton, h.speed]
          push_cast
          omega

theorem inv_of_reachable {s : State} (h : Reachable s) : Inv s := by
  induction h with
  | init => exact inv_initialState
  | tick _ ih => exact inv_tick ih
  | drop _ hd ih => exact inv_drop ih hd
  | restart _ _ => exact inv_restart _

theorem nodup_run (a : Int) (w : Nat) : (run a w).Nodup := by
  unfold run
  refine List.Nodup.map ?_ (List.nodup_range w)
  intro i j hij
  simp only at hij
  omega

theorem reachable_dropN {n : Nat} {s t : State} (h : Reachable s) (hd : dropN n s = some t) :
    Reachable t := by
  induction n generalizing s with
  | zero =>
    simp only [dropN, Option.some.injEq] at hd
    exact hd ▸ h
  | succ k ih =>
    simp only [dropN] at hd
    split at hd
    · cases hd
    · rename_i u hu
      exact ih (Reachable.drop h hu) hd

/-! ## Facts about the concrete play-throughs -/

theorem dropN_initialState : dropN 13 initialState = some topState := by decide

theorem reachable_topState : Reachable topState :=
  reachable_dropN Reachable.init dropN_initialState

theorem dropN_trimmedTop : dropN 13 (tick (tick initialState)) = some trimmedTop := by decide

theorem reachable_trimmedTop : Reachable trimmedTop :=
  reachable_dropN (Reachable.tick (Reachable.tick Reachable.init)) dropN_trimmedTop

theorem handleDrop_scenario : handleDrop (tick (tick initialState)) = some scenarioState := by
  decide

theorem reachable_scenarioState : Reachable scenarioState :=
  Reachable.drop (Reachable.tick (Reachable.tick Reachable.init)) handleDrop_scenario

theorem movingInGrid_of_inv {s : State} (h : Inv s) : MovingInGrid s.moving := by
  obtain ⟨a, w, hc, ha, hw1, _, haw⟩ := h.mov
  obtain ⟨k, rfl⟩ : ∃ k, w = k + 1 := ⟨w - 1, by omega⟩
  push_cast at haw
  refine ⟨?_, a, a + (k : Int), ?_, ?_, ha, ?_⟩
  · intro c hcm
    rw [hc, mem_run] at hcm
    simp only [COLS]
    push_cast at hcm
    omega
  · rw [hc, minCol_run]
  · rw [hc, maxCol_run]
  · simp only [COLS]; omega

theorem tick_running {s : State} (hr : s.running = true) (hg : s.gameOver = false) :
    tick s = { s with moving := tickMoving s.moving } := by
  unfold tick
  simp [hr, hg]

theorem tick_gameOver {s : State} (hg : s.gameOver = true) : tick s = s := by
  unfold tick
  simp [hg]

theorem handleDrop_gameOver {s : State} (hg : s.gameOver = true) : handleDrop s = some s := by
  unfold handleDrop
  simp [hg]

theorem running_of_inv {s : State} (h : Inv s) (hg : s.gameOver = false) : s.running = true := by
  rw [h.flags, hg]; rfl

theorem ticks_leftEdgeState :
    tick (tick (tick (tick (tick (tick initialState))))) = leftEdgeState := by decide

theorem reachable_leftEdgeState : Reachable leftEdgeState :=
  ticks_leftEdgeState ▸ Reachable.tick (Reachable.tick (Reachable.tick
    (Reachable.tick (Reachable.tick (Reachable.tick Reachable.init)))))

theorem overlapCols_eq_filter (m : Moving) (p : Row) :
    overlapCols m p = m.cols.filter (fun c => decide (c ∈ p.cols)) := by
  unfold overlapCols
  apply List.filter_congr
  intro c _
  simp

theorem handleDrop_lostState : handleDrop (tick scenarioState) = some lostState := by decide

theorem reachable_lostState : Reachable lostState :=
  Reachable.drop (Reachable.tick reachable_scenarioState) handleDrop_lostState

/-! ## The claims -/

/-- C1 (the code departs from the claim): on the reachable state `topState` the
game is running, the moving block is on the top row `ROWS - 1 = 14` and all
three of its columns occur in the last stack row, yet `handleDrop` only sets
the two flags: the stack afterwards is the stack before, still 14 rows long,
its last entry is row 13 and not the new row `{row: 14, cols: [2, 3, 4]}`.
The game is reported as won. -/
theorem C1_winning_drop_keeps_stack :
    Reachable topState ∧ topState.gameOver = false ∧ topState.moving.row = ROWS - 1 ∧
    topState.stack.getLast? = some { row := 13, cols := [2, 3, 4] } ∧
    overlapCols topState.moving { row := 13, cols := [2, 3, 4] } = [2, 3, 4] ∧
    handleDrop topState = some { topState with gameOver := true, running := false } ∧
    ∀ t, handleDrop topState = some t →
      outcome t = Outcome.won ∧ t.stack = topState.stack ∧ t.stack.length = 14 ∧
      t.stack.getLast? = some { row := 13, cols := [2, 3, 4] } ∧
      t.stack ≠ topState.stack ++ [{ row := 14, cols := [2, 3, 4] }] := by
  refine ⟨reachable_topState, rfl, rfl, by decide, by decide, by decide, ?_⟩
  intro t ht
  have h : handleDrop topState = some { topState with gameOver := true, running := false } := by
    decide
  rw [h] at ht
  cases ht
  decide

/-- C2 (the code departs from the claim): on the reachable state
`tick trimmedTop` the game is running and the moving block `[5]` shares no
column with the last stack row `[4]`; `handleDrop` ends the game and leaves the
stack unchanged, but the stack is 14 rows long, so the outcome reported from
`gameOver` and `stack.length` is the win, not the loss. -/
theorem C2_miss_on_top_row_reports_win :
    Reachable (tick trimmedTop) ∧ (tick trimmedTop).gameOver = false ∧
    (tick trimmedTop).moving = { row := 14, cols := [5], dir := 1 } ∧
    (tick trimmedTop).stack.getLast? = some { row := 13, cols := [4] } ∧
    overlapCols (tick trimmedTop).moving { row := 13, cols := [4] } = [] ∧
    ∀ t, handleDrop (tick trimmedTop) = some t →
      t.gameOver = true ∧ t.stack = (tick trimmedTop).stack ∧
      outcome t = Outcome.won ∧ outcome t ≠ Outcome.lost := by
  refine ⟨Reachable.tick reachable_trimmedTop, rfl, by decide, by decide, by decide, ?_⟩
  intro t ht
  have h : handleDrop (tick trimmedTop) =
      some { tick trimmedTop with gameOver := true, running := false } := by
    decide
  rw [h] at ht
  cases ht
  decide

/-- C3: in every state reachable from the initial state by `tick`,
`handleDrop` and `restart`, every column of the moving block lies in
`[0, COLS) = [0, 7)`, with `min(moving.cols) >= 0` and
`max(moving.cols) <= 6`, both before and after a tick. -/
theorem C3_moving_block_stays_in_grid (s : State) (h : Reachable s) :
    MovingInGrid s.moving ∧ MovingInGrid (tick s).moving :=
  ⟨movingInGrid_of_inv (inv_of_reachable h),
    movingInGrid_of_inv (inv_of_reachable (Reachable.tick h))⟩

/-- The grid bound at the state after two ticks, block `[4, 5, 6]`, and after the
bounce that follows. -/
theorem C3_moving_block_stays_in_grid_witness :
    MovingInGrid (tick (tick initialState)).moving ∧
      MovingInGrid (tick (tick (tick initialState))).moving :=
  C3_moving_block_stays_in_grid (tick (tick initialState))
    (Reachable.tick (Reachable.tick Reachable.init))

/-- C4: the bounce happens in the same tick.  In every reachable running state
whose moving block has direction `+1` and largest column `COLS - 1 = 6`, one
tick yields direction `-1` and every column decreased by 1; with direction
`-1` and smallest column 0, one tick yields direction `+1` and every column
increased by 1. -/
theorem C4_bounce_in_same_tick (s : State) (h : Reachable s) (hg : s.gameOver = false) :
    (s.moving.dir = 1 → maxCol s.moving.cols = some (COLS - 1) →
      (tick s).moving.dir = -1 ∧
        (tick s).moving.cols = s.moving.cols.map (fun c => c - 1)) ∧
    (s.moving.dir = -1 → minCol s.moving.cols = some 0 →
      (tick s).moving.dir = 1 ∧
        (tick s).moving.cols = s.moving.cols.map (fun c => c + 1)) := by
  have hi := inv_of_reachable h
  obtain ⟨a, w, hc, ha, hw1, hw3, haw⟩ := hi.mov
  obtain ⟨k, rfl⟩ : ∃ k, w = k + 1 := ⟨w - 1, by omega⟩
  push_cast at haw
  have ht := tickMoving_run s.moving a k hc (by omega) (by omega) hi.dir
  rw [tick_running (running_of_inv hi hg) hg]
  constructor
  · intro hd hmax
    rw [hc, maxCol_run] at hmax
    simp only [COLS, Option.some.injEq] at hmax
    have hcond : ¬ ((s.moving.dir = 1 ∧ a + (k : Int) < 6) ∨ (s.moving.dir = -1 ∧ a ≤ 0)) := by
      rw [hd]; omega
    show (tickMoving s.moving).dir = -1 ∧ (tickMoving s.moving).cols = _
    rw [ht, if_neg hcond, hc]
    refine ⟨rfl, ?_⟩
    show run (a - 1) (k + 1) = _
    rw [sub_eq_add_neg, ← map_add_run]
    rfl
  · intro hd hmin
    rw [hc, minCol_run] at hmin
    simp only [Option.some.injEq] at hmin
    have hcond : (s.moving.dir = 1 ∧ a + (k : Int) < 6) ∨ (s.moving.dir = -1 ∧ a ≤ 0) :=
      Or.inr ⟨hd, by omega⟩
    show (tickMoving s.moving).dir = 1 ∧ (tickMoving s.moving).cols = _
    rw [ht, if_pos hcond, hc]
    refine ⟨rfl, ?_⟩
    show run (a + 1) (k + 1) = _
    rw [← map_add_run]

/-- Both bounces on concrete states: `[4, 5, 6]` moving right turns into
`[3, 4, 5]` moving left, and `[0, 1, 2]` moving left into `[1, 2, 3]` moving
right. -/
theorem C4_bounce_in_same_tick_witness :
    ((tick (tick initialState)).moving = { row := 1, cols := [4, 5, 6], dir := 1 } ∧
      (tick (tick (tick initialState))).moving.dir = -1 ∧
      (tick (tick (tick initialState))).moving.cols = [3, 4, 5]) ∧
    (leftEdgeState.moving = { row := 1, cols := [0, 1, 2], dir := -1 } ∧
      (tick leftEdgeState).moving.dir = 1 ∧
      (tick leftEdgeState).moving.cols = [1, 2, 3]) :=
  ⟨⟨by decide,
    (C4_bounce_in_same_tick (tick (tick initialState))
      (Reachable.tick (Reachable.tick Reachable.init)) (by decide)).1 (by decide) (by decide)⟩,
   ⟨rfl,
    (C4_bounce_in_same_tick leftEdgeState reachable_leftEdgeState rfl).2 rfl (by decide)⟩⟩

/-- C5: in every state reachable from the initial state by `tick`,
`handleDrop` and `restart`, the stack rows have the indices 0, 1, 2, ... in
steps of exactly 1, the columns of every row are a non-empty, duplicate-free
subset of `[0, 7)`, and every row is at most as wide as the row immediately
below it. -/
theorem C5_stack_rows_well_formed (s : State) (h : Reachable s) :
    s.stack.map Row.row = List.range s.stack.length ∧
    (∀ r ∈ s.stack, r.cols ≠ [] ∧ r.cols.Nodup ∧ ∀ c ∈ r.cols, 0 ≤ c ∧ c < COLS) ∧
    s.stack.Chain' (fun below above => above.cols.length ≤ below.cols.length) := by
  have hi := inv_of_reachable h
  refine ⟨hi.rows, ?_, hi.widths⟩
  intro r hr
  obtain ⟨a, w, hc, ha, hw1, haw⟩ := hi.contig r hr
  refine ⟨?_, ?_, ?_⟩
  · intro he
    have := congrArg List.length he
    rw [hc, length_run] at this
    simp only [List.length_nil] at this
    omega
  · rw [hc]; exact nodup_run a w
  · intro c hcm
    rw [hc, mem_run] at hcm
    simp only [COLS]
    omega

/-- The stack of the scenario state, `[{0, [2,3,4]}, {1, [4]}]`, is well formed. -/
theorem C5_stack_rows_well_formed_witness :
    scenarioState.stack.map Row.row = List.range scenarioState.stack.length ∧
    (∀ r ∈ scenarioState.stack,
      r.cols ≠ [] ∧ r.cols.Nodup ∧ ∀ c ∈ r.cols, 0 ≤ c ∧ c < COLS) ∧
    scenarioState.stack.Chain' (fun below above => above.cols.length ≤ below.cols.length) :=
  C5_stack_rows_well_formed scenarioState reachable_scenarioState

/-- C6: for every running state whose moving block is below the top row
(`moving.row < ROWS - 1 = 14`) and shares a column with the last stack row,
`handleDrop` appends exactly the row `{row: moving.row, cols: overlap}`, where
`overlap` is the moving block's columns that occur in the last stack row, in
the moving block's order; the moving block becomes
`{row: moving.row + 1, cols: overlap, dir: +1}`; the speed becomes
`max(100, speed - 15)`; the game keeps running.  From the initial state, two
ticks and one drop give the stack `[{0, [2,3,4]}, {1, [4]}]`, the moving block
`{row 2, cols [4], dir +1}` and the speed 385. -/
theorem C6_drop_below_top_row (s : State) (prevRow : Row) (hg : s.gameOver = false)
    (hl : s.stack.getLast? = some prevRow) (hrow : s.moving.row < ROWS - 1)
    (hov : ∃ c, c ∈ s.moving.cols ∧ c ∈ prevRow.cols) :
    handleDrop s = some
      { stack := s.stack ++
          [{ row := s.moving.row
             cols := s.moving.cols.filter (fun c => decide (c ∈ prevRow.cols)) }]
        moving :=
          { row := s.moving.row + 1
            cols := s.moving.cols.filter (fun c => decide (c ∈ prevRow.cols))
            dir := 1 }
        speed := max 100 (s.speed - 15)
        running := s.running
        gameOver := false } ∧
    handleDrop (tick (tick initialState)) = some
      { stack := [{ row := 0, cols := [2, 3, 4] }, { row := 1, cols := [4] }]
        moving := { row := 2, cols := [4], dir := 1 }
        speed := 385
        running := true
        gameOver := false } := by
  refine ⟨?_, handleDrop_scenario⟩
  obtain ⟨c, hc1, hc2⟩ := hov
  have hne : overlapCols s.moving prevRow ≠ [] := by
    rw [overlapCols_eq_filter]
    intro he
    have hmem : c ∈ s.moving.cols.filter (fun c => decide (c ∈ prevRow.cols)) :=
      List.mem_filter.mpr ⟨hc1, by simpa using hc2⟩
    rw [he] at hmem
    exact absurd hmem (List.not_mem_nil c)
  have hrow' : ¬ (ROWS - 1 ≤ s.moving.row) := by omega
  rw [handleDrop_running s prevRow hg hl, if_neg hne, if_neg hrow', overlapCols_eq_filter, hg]

/-- The drop of the scenario: the block `[4, 5, 6]` on row 1 is trimmed to `[4]`. -/
theorem C6_drop_below_top_row_witness :
    (tick (tick initialState)).gameOver = false ∧
    (tick (tick initialState)).moving = { row := 1, cols := [4, 5, 6], dir := 1 } ∧
    handleDrop (tick (tick initialState)) = some
      { stack := [{ row := 0, cols := [2, 3, 4] }, { row := 1, cols := [4] }]
        moving := { row := 2, cols := [4], dir := 1 }
        speed := 385
        running := true
        gameOver := false } :=
  ⟨by decide, by decide,
    (C6_drop_below_top_row (tick (tick initialState)) { row := 0, cols := [2, 3, 4] }
      (by decide) (by decide) (by decide) ⟨4, by decide, by decide⟩).1⟩

/-- C7: in every running state reachable from the initial state by `tick`,
`handleDrop` and `restart`, the row of the moving block is the index of the
last stack row plus 1, its columns are a run of consecutive integers as long as
the last stack row is wide, and its direction is `+1` or `-1`. -/
theorem C7_moving_block_shape (s : State) (h : Reachable s) (_hg : s.gameOver = false) :
    ∃ prevRow, s.stack.getLast? = some prevRow ∧
      s.moving.row = prevRow.row + 1 ∧
      (∃ a : Int, s.moving.cols = run a prevRow.cols.length) ∧
      s.moving.cols.length = prevRow.cols.length ∧
      (s.moving.dir = 1 ∨ s.moving.dir = -1) := by
  have hi := inv_of_reachable h
  obtain ⟨prev, hp1, hp2, hp3⟩ := hi.last
  obtain ⟨a, w, hc, -⟩ := hi.mov
  refine ⟨prev, hp1, hp2, ⟨a, ?_⟩, hp3, hi.dir⟩
  rw [← hp3, hc, length_run]

/-- The moving block of the scenario state sits on row 2 and is one column wide,
as the row below it. -/
theorem C7_moving_block_shape_witness :
    ∃ prevRow, scenarioState.stack.getLast? = some prevRow ∧
      scenarioState.moving.row = prevRow.row + 1 ∧
      (∃ a : Int, scenarioState.moving.cols = run a prevRow.cols.length) ∧
      scenarioState.moving.cols.length = prevRow.cols.length ∧
      (scenarioState.moving.dir = 1 ∨ scenarioState.moving.dir = -1) :=
  C7_moving_block_shape scenarioState reachable_scenarioState rfl

/-- C8: once the game is over, `tick` and `handleDrop` do nothing: from every
game-over state, every finite sequence of `tick` and `handleDrop` calls returns
the very same state (stack, moving block, speed and both flags); `restart`
does change it. -/
theorem C8_game_over_is_frozen (s : State) (hg : s.gameOver = true) (cs : List Call) :
    runCalls cs s = some s ∧ tick s = s ∧ handleDrop s = some s ∧ restart s ≠ s := by
  refine ⟨?_, tick_gameOver hg, handleDrop_gameOver hg, ?_⟩
  · induction cs with
    | nil => rfl
    | cons c cs ih =>
      cases c with
      | tick => rw [runCalls, tick_gameOver hg]; exact ih
      | drop => simp only [runCalls, handleDrop_gameOver hg]; exact ih
  · intro he
    have : (restart s).gameOver = s.gameOver := by rw [he]
    rw [hg] at this
    exact Bool.false_ne_true this

/-- Four calls on the lost state leave it as it is. -/
theorem C8_game_over_is_frozen_witness :
    lostState.gameOver = true ∧
    runCalls [Call.tick, Call.drop, Call.drop, Call.tick] lostState = some lostState ∧
    tick lostState = lostState ∧ handleDrop lostState = some lostState ∧
    restart lostState ≠ lostState :=
  ⟨rfl, C8_game_over_is_frozen lostState rfl [Call.tick, Call.drop, Call.drop, Call.tick]⟩

/-- C9: from every state, running or game-over, `restart` yields exactly the
initial state: stack `[{row: 0, cols: [2,3,4]}]`, moving block
`{row: 1, cols: [2,3,4], dir: +1}`, speed 400, running and not game-over; this
is the state the component is constructed with. -/
theorem C9_restart_gives_initial_state (s : State) :
    restart s =
      { stack := [{ row := 0, cols := [2, 3, 4] }]
        moving := { row := 1, cols := [2, 3, 4], dir := 1 }
        speed := 400
        running := true
        gameOver := false } ∧
    restart s = initialState :=
  ⟨rfl, rfl⟩

/-- C10: in every state reachable from the initial state by `tick`,
`handleDrop` and `restart`, `speed = 400 - 15 * (stack.length - 1)` and
`stack.length <= 14`; hence the speed is at least 205, neither `tick` nor
`handleDrop` raises it, and `Math.max(100, speed - 15)` is `speed - 15`, above
the floor of 100. -/
theorem C10_speed_follows_stack_height (s : State) (h : Reachable s) :
    s.speed = 400 - 15 * ((s.stack.length : Int) - 1) ∧
    s.stack.length ≤ 14 ∧
    205 ≤ s.speed ∧
    (tick s).speed = s.speed ∧
    (∀ t, handleDrop s = some t →
      t.speed = s.speed ∨ (t.speed = s.speed - 15 ∧ t.stack.length = s.stack.length + 1)) ∧
    max 100 (s.speed - 15) = s.speed - 15 ∧ 100 < s.speed - 15 := by
  have hi := inv_of_reachable h
  have hs := hi.speed
  have hl := hi.len
  have h205 : 205 ≤ s.speed := by omega
  refine ⟨hs, hl, h205, ?_, ?_, by omega, by omega⟩
  · unfold tick
    split <;> rfl
  · intro t ht
    by_cases hg : s.gameOver = true
    · rw [handleDrop_gameOver hg] at ht
      cases ht
      exact Or.inl rfl
    · have hg' : s.gameOver = false := by simpa using hg
      obtain ⟨prev, hp1, -⟩ := hi.last
      rw [handleDrop_running s prev hg' hp1] at ht
      split at ht
      · cases ht; exact Or.inl rfl
      · split at ht
        · cases ht; exact Or.inl rfl
        · cases ht
          refine Or.inr ⟨?_, ?_⟩
          · show max 100 (s.speed - 15) = s.speed - 15
            omega
          · show (s.stack ++ [_]).length = s.stack.length + 1
            rw [List.length_append, List.length_singleton]

/-- The scenario state has two rows and speed 385. -/
theorem C10_speed_follows_stack_height_witness :
    scenarioState.speed = 400 - 15 * ((scenarioState.stack.length : Int) - 1) ∧
    scenarioState.stack.length ≤ 14 ∧
    205 ≤ scenarioState.speed ∧
    (tick scenarioState).speed = scenarioState.speed ∧
    (∀ t, handleDrop scenarioState = some t →
      t.speed = scenarioState.speed ∨
        (t.speed = scenarioState.speed - 15 ∧
          t.stack.length = scenarioState.stack.length + 1)) ∧
    max 100 (scenarioState.speed - 15) = scenarioState.speed - 15 ∧
    100 < scenarioState.speed - 15 :=
  C10_speed_follows_stack_height scenarioState reachable_scenarioState

end Stacker
